import Mathlib

/-!
Shallow embedding of the risk-based-BMS core (`src/pyRiskTable/risk.py` and
`src/pyRiskTable/scenario.py`) over an arbitrary linear ordered field `F`
(floating-point values are modelled as exact field elements).

Caller-supplied Python functions are modelled by their scalar behaviour
together with a flag recording whether a raw call with a 1-D array argument
succeeds; when it does, numpy semantics make it elementwise.  Fallible Python
code (assertion failures, TypeError, NameError on the `return` statement,
exceptions raised while evaluating user functions) is modelled with
`Option`/`Except`: `none`/`error` means the call raises and no result is
produced.
-/

namespace RiskBMS

section Model

variable {F : Type} [LinearOrderedField F]

/-- Model of a caller-supplied one-argument Python function: `onScalar` is its
behaviour on a scalar IM, `supportsArray` records whether calling it with a
1-D numpy array succeeds (in which case numpy semantics are elementwise). -/
structure UserFn (F : Type) where
  onScalar : F → F
  supportsArray : Bool

/-- Model of a caller-supplied two-argument Python function (joint likelihood
of a primary and a secondary IM). -/
structure UserFn2 (F : Type) where
  onScalar : F → F → F
  supportsArray : Bool

/-- A raw Python call `f(xs)` with a 1-D array argument: it raises (`none`)
when `f` is scalar-only, otherwise it is elementwise. -/
def rawApply (f : UserFn F) (xs : List F) : Option (List F) :=
  if f.supportsArray then some (xs.map f.onScalar) else none

/-- `np.vectorize(f)(xs)`: applies the underlying scalar function
independently to every element of the sample array. -/
def vecApply (f : UserFn F) (xs : List F) : List F :=
  xs.map f.onScalar

/-- The adapter branch of `generate_primary_event`: when the `vec` flag is
set the function is called raw on the array, otherwise it is wrapped in
`np.vectorize` first. -/
def adaptedApply (f : UserFn F) (vec : Bool) (xs : List F) : Option (List F) :=
  if vec then rawApply f xs else some (vecApply f xs)

/-- A raw Python call `f(xs, ys)` of a two-argument function on two parallel
1-D arrays. -/
def rawApply2 (f : UserFn2 F) (xs ys : List F) : Option (List F) :=
  if f.supportsArray then some (List.zipWith f.onScalar xs ys) else none

/-!  ### `risk.py`: the consequence aggregator -/

/-- The distinct ways `expected_consequence` can raise.  `missingFragility`
is the `AssertionError` of the explicit check
`assert fragility_funcs is not None`; `noneLength` is the `TypeError` raised
by `len(cq_array)` when `cq_array` is `None`; `lengthMismatch` is the
`AssertionError` of the explicit length check. -/
inductive ConsequenceError where
  | missingFragility
  | noneLength
  | lengthMismatch
deriving DecidableEq

/-- `cdf_array = np.array([func(im) for func in fragility_funcs])`
for a scalar `im`. -/
def cdfList (im : F) (fragility_funcs : List (F → F)) : List F :=
  fragility_funcs.map (fun f => f im)

/-- `prob_array = -np.diff(cdf_array, axis=0, append=0)`: the probability of
landing in exactly damage state `j` is `cdf[j] - cdf[j+1]`, with the CDF
beyond the last index treated as 0. -/
def prob_array : List F → List F
  | [] => []
  | [c] => [c]
  | c :: c2 :: rest => (c - c2) :: prob_array (c2 :: rest)

/-- `prob_array.T @ cq_array` for a scalar `im`: the dot product. -/
def dotList (xs ys : List F) : F :=
  (List.zipWith (fun u v => u * v) xs ys).sum

/-- `expected_consequence(im, fragility_funcs, cq_array)` from
`src/pyRiskTable/risk.py`, at a scalar `im`.  Omitted (default `None`)
arguments are modelled as `none`. -/
def expected_consequence (im : F) (fragility_funcs : Option (List (F → F)))
    (cq_array : Option (List F)) : Except ConsequenceError F :=
  match fragility_funcs with
  | none => Except.error ConsequenceError.missingFragility
  | some funcs =>
    match cq_array with
    | none => Except.error ConsequenceError.noneLength
    | some cqs =>
      if funcs.length = cqs.length then
        Except.ok (dotList (prob_array (cdfList im funcs)) cqs)
      else
        Except.error ConsequenceError.lengthMismatch

/-!  ### `scenario.py`: the adaptive quadrature engines -/

/-- `ims = (b-a)*(x+1)/2.0+a`: the abscissas of the order-`n` rule mapped
affinely onto `[a, b]`. -/
def primaryIms (rule : ℕ → List (F × F)) (a b : F) (n : ℕ) : List F :=
  (rule n).map (fun p => (b - a) * (p.1 + 1) / 2 + a)

/-- `scalers = (b-a)/2.0 * w`: the order-`n` weights rescaled to `[a, b]`. -/
def primaryScalers (rule : ℕ → List (F × F)) (a b : F) (n : ℕ) : List F :=
  (rule n).map (fun p => (b - a) / 2 * p.2)

/-- The per-order data computed inside the loop body: sample points, rescaled
weights, sampled likelihoods and consequences, and the candidate risk
`newval`.  `σ` is `F` for the 1-D engine and `F × F` for the 2-D engine. -/
structure StepOut (σ F : Type) where
  ims : List σ
  scalers : List σ
  likes : List F
  cqs : List F
  newval : F

/-- `if err < tol or err < rtol*abs(val)`.  The previous-candidate value is
initialized to `+inf`, modelled by `none`: an infinite error never satisfies
the test. -/
def stopTest (tol rtol newval : F) : Option F → Bool
  | none => false
  | some e => decide (e < tol ∨ e < rtol * |newval|)

/-- The state observable when the order-escalation loop finishes: the last
loop body's output (`none` when the body never ran), the last `val` and `err`
(`none` models `inf`), the order accepted by `break` (`none` when the loop
exhausted the range), and the number of iterations executed. -/
structure LoopOut (α F : Type) where
  last : Option α
  val : Option F
  err : Option F
  accepted : Option ℕ
  iters : ℕ

/-- The order-escalation loop `for n in range(min_order, max_order+1)` of
both engines, with `fuel` the number of remaining orders.  A step returning
`none` models a user function raising, which propagates out of the call. -/
def quadLoop (stepFn : ℕ → Option α) (nvOf : α → F) (tol rtol : F) :
    ℕ → ℕ → Option α → Option F → Option F → Option (LoopOut α F)
  | 0, _, l, v, e => some ⟨l, v, e, none, 0⟩
  | fuel + 1, n, _, v, _ =>
    match stepFn n with
    | none => none
    | some out =>
      let newval := nvOf out
      let e2 := v.map (fun w => |newval - w|)
      if stopTest tol rtol newval e2 then
        some ⟨some out, some newval, e2, some n, 1⟩
      else
        (quadLoop stepFn nvOf tol rtol fuel (n + 1) (some out) (some newval) e2).map
          (fun r => ⟨r.last, r.val, r.err, r.accepted, r.iters + 1⟩)

/-- The loop body of `generate_primary_event` at order `n`: both user
functions are evaluated through the adapter branch selected by their `vec`
flag. -/
def primaryStep (rule : ℕ → List (F × F)) (a b : F) (lf : UserFn F)
    (vec_likelihood : Bool) (cf : UserFn F) (vec_consequence : Bool) (n : ℕ) :
    Option (StepOut F F) :=
  let ims := primaryIms rule a b n
  let scalers := primaryScalers rule a b n
  match adaptedApply lf vec_likelihood ims, adaptedApply cf vec_consequence ims with
  | some likes, some cqs =>
    some ⟨ims, scalers, likes, cqs,
      (List.zipWith (fun u v => u * v)
        (List.zipWith (fun u v => u * v) scalers likes) cqs).sum⟩
  | _, _ => none

/-- What an engine call returns: the 6-tuple
`(ims, scalers, likes, cqs, val, err)` (with `err = none` modelling `inf`),
plus the observable loop outcome: the order accepted by `break`, the
`_AccuracyWarning` payload `(max_order, err)` when one was emitted, and the
number of loop iterations executed. -/
structure EngineResult (σ F : Type) where
  ims : List σ
  scalers : List σ
  likes : List F
  cqs : List F
  val : F
  err : Option F
  acceptedOrder : Option ℕ
  warned : Option (ℕ × Option F)
  iters : ℕ

/-- The code after the loop: the `for`-`else` warning branch and the
`return` statement.  When the loop body never ran, `ims`, …, `val` were never
assigned and the `return` raises `NameError`, modelled by `none`. -/
def finishEngine (lo : LoopOut (StepOut σ F) F) (min_order max_order : ℕ) :
    Option (EngineResult σ F) :=
  match lo.last, lo.val with
  | some out, some v =>
    some ⟨out.ims, out.scalers, out.likes, out.cqs, v, lo.err, lo.accepted,
      if lo.accepted = none ∧ min_order < max_order then some (max_order, lo.err) else none,
      lo.iters⟩
  | _, _ => none

/-- `generate_primary_event` from `src/pyRiskTable/scenario.py`.  The
Gauss–Legendre rule supplied by the external `scipy.special.roots_legendre`
is a parameter `rule` of the embedding (`rule n` is the list of
(abscissa, weight) pairs of the order-`n` rule on `[-1, 1]`); keyword
dictionaries are absorbed into the modelled functions. -/
def generate_primary_event (rule : ℕ → List (F × F)) (a b : F)
    (likelihood_func : Option (UserFn F)) (vec_likelihood : Bool)
    (consequence_func : Option (UserFn F)) (vec_consequence : Bool)
    (tol rtol : F) (min_order max_order : ℕ) : Option (EngineResult F F) :=
  match likelihood_func, consequence_func with
  | some lf, some cf =>
    (quadLoop (primaryStep rule a b lf vec_likelihood cf vec_consequence)
        StepOut.newval tol rtol (max_order + 1 - min_order) min_order
        none none none).bind
      (fun lo => finishEngine lo min_order max_order)
  | _, _ => none

/-- The flattened tensor-product grid built by
`np.meshgrid(u, w)` followed by `ravel()`: the second factor varies in the
outer loop, the first in the inner loop. -/
def gridPairs (xs : List β) : List γ → List (β × γ)
  | [] => []
  | y :: ys => xs.map (fun x => (x, y)) ++ gridPairs xs ys

/-- The loop body of `generate_secondary_event` at order `n`.  Note: the
source builds `np.vectorize` adapters before the loop but the loop body calls
`consequence_func(im2, **kw_consequence)` and
`likelihood_func(im1, im2, **kw_likelihood)` raw, so a scalar-only function
raises `TypeError` here regardless of its `vec` flag.  The consequence
function is evaluated before the likelihood, on the secondary IMs only. -/
def secondaryStep (rule : ℕ → List (F × F)) (a b c d : F)
    (lf : UserFn2 F) (cf : UserFn F) (n : ℕ) : Option (StepOut (F × F) F) :=
  let im1s := primaryIms rule a b n
  let im2s := primaryIms rule c d n
  let w1s := primaryScalers rule a b n
  let w2s := primaryScalers rule c d n
  let imPairs := gridPairs im1s im2s
  let wPairs := gridPairs w1s w2s
  match rawApply cf (imPairs.map Prod.snd) with
  | none => none
  | some cqs =>
    match rawApply2 lf (imPairs.map Prod.fst) (imPairs.map Prod.snd) with
    | none => none
    | some likes =>
      some ⟨imPairs, wPairs, likes, cqs,
        (List.zipWith (fun u v => u * v)
          (List.zipWith (fun u v => u * v)
            (List.zipWith (fun u v => u * v) (wPairs.map Prod.fst) (wPairs.map Prod.snd))
            likes) cqs).sum⟩

/-- `generate_secondary_event` from `src/pyRiskTable/scenario.py`.  The
`vec_likelihood` and `vec_consequence` parameters are accepted (the source
builds adapters from them) but the loop body never uses the adapters, so they
do not influence the computation. -/
def generate_secondary_event (rule : ℕ → List (F × F)) (a b c d : F)
    (likelihood_func : Option (UserFn2 F)) (vec_likelihood : Bool)
    (consequence_func : Option (UserFn F)) (vec_consequence : Bool)
    (tol rtol : F) (min_order max_order : ℕ) : Option (EngineResult (F × F) F) :=
  match likelihood_func, consequence_func with
  | some lf, some cf =>
    (quadLoop (secondaryStep rule a b c d lf cf)
        StepOut.newval tol rtol (max_order + 1 - min_order) min_order
        none none none).bind
      (fun lo => finishEngine lo min_order max_order)
  | _, _ => none

end Model

section LoopLemmas

variable {F : Type} [LinearOrderedField F] {α : Type}

/-- The stopping test never fires on an infinite (`none`) error. -/
theorem stopTest_none (tol rtol v : F) : stopTest tol rtol v none = false := rfl

/-- The stopping test the loop applies at order `k`, expressed on the
per-order candidate sequence `nv`: the error at order `k` is the absolute
difference between the candidates of orders `k` and `k - 1`. -/
def stopSeq (tol rtol : F) (nv : ℕ → F) (k : ℕ) : Bool :=
  stopTest tol rtol (nv k) (some |nv k - nv (k - 1)|)

/-- When every step succeeds, the loop itself never raises. -/
theorem quadLoop_total (stepFn : ℕ → Option α) (nvOf : α → F) (tol rtol : F)
    (outf : ℕ → α) (hstep : ∀ k, stepFn k = some (outf k)) :
    ∀ (fuel n : ℕ) (l : Option α) (v e : Option F),
      ∃ r, quadLoop stepFn nvOf tol rtol fuel n l v e = some r := by
  intro fuel
  induction fuel with
  | zero => intro n l v e; exact ⟨_, rfl⟩
  | succ f ih =>
    intro n l v e
    simp only [quadLoop, hstep n]
    by_cases hst : stopTest tol rtol (nvOf (outf n))
        (v.map fun w => |nvOf (outf n) - w|) = true
    · rw [if_pos hst]; exact ⟨_, rfl⟩
    · rw [if_neg hst]
      obtain ⟨r, hr⟩ := ih (n + 1) (some (outf n)) (some (nvOf (outf n)))
        (v.map fun w => |nvOf (outf n) - w|)
      rw [hr]; exact ⟨_, rfl⟩

/-- The loop executes at most `fuel` iterations. -/
theorem quadLoop_iters_le (stepFn : ℕ → Option α) (nvOf : α → F) (tol rtol : F) :
    ∀ (fuel n : ℕ) (l : Option α) (v e : Option F) (r : LoopOut α F),
      quadLoop stepFn nvOf tol rtol fuel n l v e = some r → r.iters ≤ fuel := by
  intro fuel
  induction fuel with
  | zero =>
    intro n l v e r h
    simp only [quadLoop, Option.some.injEq] at h
    cases h; simp
  | succ f ih =>
    intro n l v e r h
    simp only [quadLoop] at h
    cases hs : stepFn n with
    | none => rw [hs] at h; cases h
    | some out =>
      rw [hs] at h
      simp only at h
      by_cases hst : stopTest tol rtol (nvOf out)
          (v.map fun w => |nvOf out - w|) = true
      · rw [if_pos hst] at h
        simp only [Option.some.injEq] at h
        cases h; simp
      · rw [if_neg hst] at h
        cases hq : quadLoop stepFn nvOf tol rtol f (n + 1) (some out) (some (nvOf out))
            (v.map fun w => |nvOf out - w|) with
        | none => rw [hq] at h; cases h
        | some r2 =>
          rw [hq] at h
          simp only [Option.map_some', Option.some.injEq] at h
          cases h
          have := ih (n + 1) (some out) (some (nvOf out))
            (v.map fun w => |nvOf out - w|) r2 hq
          simpa using Nat.succ_le_succ this

/-- Once the previous candidate is finite, the loop's `val` stays assigned
and the last loop-body output is either the initial one or freshly
assigned. -/
theorem quadLoop_val_isSome (stepFn : ℕ → Option α) (nvOf : α → F) (tol rtol : F) :
    ∀ (fuel n : ℕ) (l : Option α) (w : F) (e : Option F) (r : LoopOut α F),
      quadLoop stepFn nvOf tol rtol fuel n l (some w) e = some r →
      r.val.isSome = true ∧ (r.last = l ∨ r.last.isSome = true) := by
  intro fuel
  induction fuel with
  | zero =>
    intro n l w e r h
    simp only [quadLoop, Option.some.injEq] at h
    cases h; exact ⟨rfl, Or.inl rfl⟩
  | succ f ih =>
    intro n l w e r h
    simp only [quadLoop] at h
    cases hs : stepFn n with
    | none => rw [hs] at h; cases h
    | some out =>
      rw [hs] at h
      simp only at h
      by_cases hst : stopTest tol rtol (nvOf out)
          ((some w).map fun u => |nvOf out - u|) = true
      · rw [if_pos hst] at h
        simp only [Option.some.injEq] at h
        cases h; exact ⟨rfl, Or.inr rfl⟩
      · rw [if_neg hst] at h
        cases hq : quadLoop stepFn nvOf tol rtol f (n + 1) (some out) (some (nvOf out))
            ((some w).map fun u => |nvOf out - u|) with
        | none => rw [hq] at h; cases h
        | some r2 =>
          rw [hq] at h
          simp only [Option.map_some', Option.some.injEq] at h
          cases h
          obtain ⟨h1, h2⟩ := ih (n + 1) (some out) (nvOf out)
            ((some w).map fun u => |nvOf out - u|) r2 hq
          refine ⟨h1, Or.inr ?_⟩
          rcases h2 with h2 | h2
          · simp [h2]
          · exact h2

/-- Characterization of a loop run whose previous candidate is the order
`n - 1` candidate: the accepted order is the first order in range whose
stopping test fires, and on acceptance `val` and `err` are the accepted
order's candidate and error. -/
theorem quadLoop_char_aux (stepFn : ℕ → Option α) (nvOf : α → F) (tol rtol : F)
    (outf : ℕ → α) (hstep : ∀ k, stepFn k = some (outf k)) :
    ∀ (fuel n : ℕ) (l : Option α) (e : Option F) (r : LoopOut α F),
      quadLoop stepFn nvOf tol rtol fuel n l (some (nvOf (outf (n - 1)))) e = some r →
      (∀ m, r.accepted = some m →
        n ≤ m ∧ m < n + fuel ∧
        stopSeq tol rtol (fun k => nvOf (outf k)) m = true ∧
        (∀ k, n ≤ k → k < m → stopSeq tol rtol (fun k => nvOf (outf k)) k = false) ∧
        r.val = some (nvOf (outf m)) ∧
        r.err = some |nvOf (outf m) - nvOf (outf (m - 1))|) ∧
      (r.accepted = none →
        ∀ k, n ≤ k → k < n + fuel → stopSeq tol rtol (fun k => nvOf (outf k)) k = false) := by
  intro fuel
  induction fuel with
  | zero =>
    intro n l e r h
    simp only [quadLoop, Option.some.injEq] at h
    cases h
    constructor
    · intro m hm; cases hm
    · intro _ k hk1 hk2; omega
  | succ f ih =>
    intro n l e r h
    simp only [quadLoop, hstep n, Option.map_some'] at h
    rw [show stopTest tol rtol (nvOf (outf n)) (some |nvOf (outf n) - nvOf (outf (n - 1))|)
        = stopSeq tol rtol (fun k => nvOf (outf k)) n from rfl] at h
    by_cases hsn : stopSeq tol rtol (fun k => nvOf (outf k)) n = true
    · rw [if_pos hsn] at h
      simp only [Option.some.injEq] at h
      cases h
      constructor
      · intro m hm
        simp only [Option.some.injEq] at hm
        cases hm
        exact ⟨le_refl n, by omega, hsn, fun k hk1 hk2 => absurd (lt_of_le_of_lt hk1 hk2) (lt_irrefl n), rfl, rfl⟩
      · intro hnone; cases hnone
    · rw [if_neg hsn] at h
      cases hq : quadLoop stepFn nvOf tol rtol f (n + 1) (some (outf n))
          (some (nvOf (outf n))) (some |nvOf (outf n) - nvOf (outf (n - 1))|) with
      | none => rw [hq] at h; cases h
      | some r2 =>
        rw [hq] at h
        simp only [Option.map_some', Option.some.injEq] at h
        cases h
        have hsn' : stopSeq tol rtol (fun k => nvOf (outf k)) n = false :=
          Bool.not_eq_true _ ▸ (by simpa using hsn)
        obtain ⟨ha, hna⟩ := ih (n + 1) (some (outf n)) (some |nvOf (outf n) - nvOf (outf (n - 1))|) r2 hq
        constructor
        · intro m hm
          obtain ⟨h1, h2, h3, h4, h5, h6⟩ := ha m hm
          refine ⟨by omega, by omega, h3, ?_, h5, h6⟩
          intro k hk1 hk2
          rcases Nat.eq_or_lt_of_le hk1 with hk | hk
          · exact hk ▸ hsn'
          · exact h4 k hk hk2
        · intro hnone k hk1 hk2
          rcases Nat.eq_or_lt_of_le hk1 with hk | hk
          · exact hk ▸ hsn'
          · exact hna hnone k hk (by omega)

/-- Characterization of a loop run started, as in both engines, with the
previous candidate initialized to `+inf` (`none`): the first iteration never
fires the stopping test, and the accepted order is the first later order in
range whose stopping test fires. -/
theorem quadLoop_char_fresh (stepFn : ℕ → Option α) (nvOf : α → F) (tol rtol : F)
    (outf : ℕ → α) (hstep : ∀ k, stepFn k = some (outf k)) :
    ∀ (fuel n : ℕ) (l : Option α) (e : Option F) (r : LoopOut α F),
      quadLoop stepFn nvOf tol rtol fuel n l none e = some r →
      (∀ m, r.accepted = some m →
        n + 1 ≤ m ∧ m < n + fuel ∧
        stopSeq tol rtol (fun k => nvOf (outf k)) m = true ∧
        (∀ k, n + 1 ≤ k → k < m → stopSeq tol rtol (fun k => nvOf (outf k)) k = false) ∧
        r.val = some (nvOf (outf m)) ∧
        r.err = some |nvOf (outf m) - nvOf (outf (m - 1))|) ∧
      (r.accepted = none →
        ∀ k, n + 1 ≤ k → k < n + fuel → stopSeq tol rtol (fun k => nvOf (outf k)) k = false) ∧
      (0 < fuel → r.val.isSome = true ∧ r.last.isSome = true) := by
  intro fuel
  cases fuel with
  | zero =>
    intro n l e r h
    simp only [quadLoop, Option.some.injEq] at h
    cases h
    refine ⟨?_, ?_, ?_⟩
    · intro m hm; cases hm
    · intro _ k hk1 hk2; omega
    · intro h0; exact absurd h0 (lt_irrefl 0)
  | succ f =>
    intro n l e r h
    simp only [quadLoop, hstep n, Option.map_none', stopTest_none, Bool.false_eq_true,
      if_false] at h
    cases hq : quadLoop stepFn nvOf tol rtol f (n + 1) (some (outf n))
        (some (nvOf (outf n))) none with
    | none => rw [hq] at h; cases h
    | some r2 =>
      rw [hq] at h
      simp only [Option.map_some', Option.some.injEq] at h
      cases h
      obtain ⟨ha, hna⟩ := quadLoop_char_aux stepFn nvOf tol rtol outf hstep f (n + 1)
        (some (outf n)) none r2 hq
      obtain ⟨hv, hl⟩ := quadLoop_val_isSome stepFn nvOf tol rtol f (n + 1)
        (some (outf n)) (nvOf (outf n)) none r2 hq
      refine ⟨?_, ?_, ?_⟩
      · intro m hm
        obtain ⟨h1, h2, h3, h4, h5, h6⟩ := ha m hm
        exact ⟨h1, by omega, h3, h4, h5, h6⟩
      · intro hnone k hk1 hk2
        exact hna hnone k hk1 (by omega)
      · intro _
        refine ⟨hv, ?_⟩
        rcases hl with hl | hl
        · simp [hl]
        · exact hl

end LoopLemmas

section EngineLemmas

variable {F : Type} [LinearOrderedField F]

/-- The adapter always yields the elementwise application when either the
`vec` flag is unset (so `np.vectorize` is used) or the function itself
supports array input. -/
theorem adaptedApply_eq_map (f : UserFn F) (vec : Bool)
    (h : vec = true → f.supportsArray = true) (xs : List F) :
    adaptedApply f vec xs = some (xs.map f.onScalar) := by
  cases vec with
  | false => rfl
  | true => simp [adaptedApply, rawApply, h rfl, vecApply]

/-- The loop body of the 1-D engine, in the successful case. -/
def primaryStepTotal (rule : ℕ → List (F × F)) (a b : F) (lf cf : UserFn F)
    (n : ℕ) : StepOut F F :=
  ⟨primaryIms rule a b n, primaryScalers rule a b n,
    (primaryIms rule a b n).map lf.onScalar, (primaryIms rule a b n).map cf.onScalar,
    (List.zipWith (fun u v => u * v)
      (List.zipWith (fun u v => u * v) (primaryScalers rule a b n)
        ((primaryIms rule a b n).map lf.onScalar))
      ((primaryIms rule a b n).map cf.onScalar)).sum⟩

/-- The candidate risk of the 1-D engine at order `n`. -/
def primaryNv (rule : ℕ → List (F × F)) (a b : F) (lf cf : UserFn F) (n : ℕ) : F :=
  (primaryStepTotal rule a b lf cf n).newval

theorem primaryStep_eq_total (rule : ℕ → List (F × F)) (a b : F) (lf cf : UserFn F)
    (vl vc : Bool) (hl : vl = true → lf.supportsArray = true)
    (hc : vc = true → cf.supportsArray = true) (n : ℕ) :
    primaryStep rule a b lf vl cf vc n = some (primaryStepTotal rule a b lf cf n) := by
  simp only [primaryStep, adaptedApply_eq_map lf vl hl, adaptedApply_eq_map cf vc hc]
  rfl

/-- The loop body of the 2-D engine, in the successful case (both raw array
calls must succeed). -/
def secondaryStepTotal (rule : ℕ → List (F × F)) (a b c d : F)
    (lf : UserFn2 F) (cf : UserFn F) (n : ℕ) : StepOut (F × F) F :=
  let imPairs := gridPairs (primaryIms rule a b n) (primaryIms rule c d n)
  let wPairs := gridPairs (primaryScalers rule a b n) (primaryScalers rule c d n)
  ⟨imPairs, wPairs,
    List.zipWith lf.onScalar (imPairs.map Prod.fst) (imPairs.map Prod.snd),
    (imPairs.map Prod.snd).map cf.onScalar,
    (List.zipWith (fun u v => u * v)
      (List.zipWith (fun u v => u * v)
        (List.zipWith (fun u v => u * v) (wPairs.map Prod.fst) (wPairs.map Prod.snd))
        (List.zipWith lf.onScalar (imPairs.map Prod.fst) (imPairs.map Prod.snd)))
      ((imPairs.map Prod.snd).map cf.onScalar)).sum⟩

/-- The candidate risk of the 2-D engine at order `n`. -/
def secondaryNv (rule : ℕ → List (F × F)) (a b c d : F) (lf : UserFn2 F)
    (cf : UserFn F) (n : ℕ) : F :=
  (secondaryStepTotal rule a b c d lf cf n).newval

theorem secondaryStep_eq_total (rule : ℕ → List (F × F)) (a b c d : F)
    (lf : UserFn2 F) (cf : UserFn F) (hl : lf.supportsArray = true)
    (hc : cf.supportsArray = true) (n : ℕ) :
    secondaryStep rule a b c d lf cf n = some (secondaryStepTotal rule a b c d lf cf n) := by
  simp only [secondaryStep, rawApply, rawApply2, if_pos hl, if_pos hc]
  rfl

/-- Master characterization of a successful `generate_primary_event` call:
existence of the returned tuple, the iteration bound, the warning equation,
and the first-hit characterization of the accepted order in terms of the
per-order candidate sequence `primaryNv`. -/
theorem primary_char (rule : ℕ → List (F × F)) (a b : F) (lf cf : UserFn F)
    (vl vc : Bool) (tol rtol : F) (minO maxO : ℕ)
    (hl : vl = true → lf.supportsArray = true)
    (hc : vc = true → cf.supportsArray = true)
    (hmin : minO ≤ maxO) :
    ∃ r : EngineResult F F,
      generate_primary_event rule a b (some lf) vl (some cf) vc tol rtol minO maxO = some r ∧
      r.iters ≤ maxO - minO + 1 ∧
      r.warned = (if r.acceptedOrder = none ∧ minO < maxO then some (maxO, r.err) else none) ∧
      (∀ m, r.acceptedOrder = some m →
        minO + 1 ≤ m ∧ m ≤ maxO ∧
        stopSeq tol rtol (primaryNv rule a b lf cf) m = true ∧
        (∀ k, minO + 1 ≤ k → k < m → stopSeq tol rtol (primaryNv rule a b lf cf) k = false) ∧
        r.val = primaryNv rule a b lf cf m ∧
        r.err = some |primaryNv rule a b lf cf m - primaryNv rule a b lf cf (m - 1)|) ∧
      (r.acceptedOrder = none →
        ∀ k, minO + 1 ≤ k → k ≤ maxO →
          stopSeq tol rtol (primaryNv rule a b lf cf) k = false) := by
  have hstep : ∀ k, primaryStep rule a b lf vl cf vc k
      = some (primaryStepTotal rule a b lf cf k) :=
    primaryStep_eq_total rule a b lf cf vl vc hl hc
  obtain ⟨lo, hlo⟩ := quadLoop_total (primaryStep rule a b lf vl cf vc) StepOut.newval
    tol rtol (primaryStepTotal rule a b lf cf) hstep (maxO + 1 - minO) minO none none none
  obtain ⟨ha, hna, hsome⟩ := quadLoop_char_fresh (primaryStep rule a b lf vl cf vc)
    StepOut.newval tol rtol (primaryStepTotal rule a b lf cf) hstep
    (maxO + 1 - minO) minO none none lo hlo
  obtain ⟨hval, hlast⟩ := hsome (by omega)
  obtain ⟨out, hout⟩ := Option.isSome_iff_exists.mp hlast
  obtain ⟨v, hv⟩ := Option.isSome_iff_exists.mp hval
  have hiters := quadLoop_iters_le (primaryStep rule a b lf vl cf vc) StepOut.newval
    tol rtol (maxO + 1 - minO) minO none none none lo hlo
  refine ⟨⟨out.ims, out.scalers, out.likes, out.cqs, v, lo.err, lo.accepted,
    if lo.accepted = none ∧ minO < maxO then some (maxO, lo.err) else none, lo.iters⟩,
    ?_, by simpa using by omega, rfl, ?_, ?_⟩
  · simp only [generate_primary_event, hlo, Option.some_bind, finishEngine, hout, hv]
  · intro m hm
    obtain ⟨h1, h2, h3, h4, h5, h6⟩ := ha m hm
    refine ⟨h1, by omega, h3, h4, ?_, h6⟩
    rw [hv] at h5
    exact (Option.some.injEq _ _).mp h5
  · intro hnone k hk1 hk2
    exact hna hnone k hk1 (by omega)

/-- Master characterization of a successful `generate_secondary_event` call;
because the loop body calls both user functions raw on arrays, it requires
both functions to support array input. -/
theorem secondary_char (rule : ℕ → List (F × F)) (a b c d : F) (lf : UserFn2 F)
    (cf : UserFn F) (vl vc : Bool) (tol rtol : F) (minO maxO : ℕ)
    (hl : lf.supportsArray = true) (hc : cf.supportsArray = true)
    (hmin : minO ≤ maxO) :
    ∃ r : EngineResult (F × F) F,
      generate_secondary_event rule a b c d (some lf) vl (some cf) vc tol rtol minO maxO
        = some r ∧
      r.iters ≤ maxO - minO + 1 ∧
      r.warned = (if r.acceptedOrder = none ∧ minO < maxO then some (maxO, r.err) else none) ∧
      (∀ m, r.acceptedOrder = some m →
        minO + 1 ≤ m ∧ m ≤ maxO ∧
        stopSeq tol rtol (secondaryNv rule a b c d lf cf) m = true ∧
        (∀ k, minO + 1 ≤ k → k < m →
          stopSeq tol rtol (secondaryNv rule a b c d lf cf) k = false) ∧
        r.val = secondaryNv rule a b c d lf cf m ∧
        r.err = some |secondaryNv rule a b c d lf cf m
          - secondaryNv rule a b c d lf cf (m - 1)|) ∧
      (r.acceptedOrder = none →
        ∀ k, minO + 1 ≤ k → k ≤ maxO →
          stopSeq tol rtol (secondaryNv rule a b c d lf cf) k = false) := by
  have hstep : ∀ k, secondaryStep rule a b c d lf cf k
      = some (secondaryStepTotal rule a b c d lf cf k) :=
    secondaryStep_eq_total rule a b c d lf cf hl hc
  obtain ⟨lo, hlo⟩ := quadLoop_total (secondaryStep rule a b c d lf cf) StepOut.newval
    tol rtol (secondaryStepTotal rule a b c d lf cf) hstep (maxO + 1 - minO) minO none none none
  obtain ⟨ha, hna, hsome⟩ := quadLoop_char_fresh (secondaryStep rule a b c d lf cf)
    StepOut.newval tol rtol (secondaryStepTotal rule a b c d lf cf) hstep
    (maxO + 1 - minO) minO none none lo hlo
  obtain ⟨hval, hlast⟩ := hsome (by omega)
  obtain ⟨out, hout⟩ := Option.isSome_iff_exists.mp hlast
  obtain ⟨v, hv⟩ := Option.isSome_iff_exists.mp hval
  have hiters := quadLoop_iters_le (secondaryStep rule a b c d lf cf) StepOut.newval
    tol rtol (maxO + 1 - minO) minO none none none lo hlo
  refine ⟨⟨out.ims, out.scalers, out.likes, out.cqs, v, lo.err, lo.accepted,
    if lo.accepted = none ∧ minO < maxO then some (maxO, lo.err) else none, lo.iters⟩,
    ?_, by simpa using by omega, rfl, ?_, ?_⟩
  · simp only [generate_secondary_event, hlo, Option.some_bind, finishEngine, hout, hv]
  · intro m hm
    obtain ⟨h1, h2, h3, h4, h5, h6⟩ := ha m hm
    refine ⟨h1, by omega, h3, h4, ?_, h6⟩
    rw [hv] at h5
    exact (Option.some.injEq _ _).mp h5
  · intro hnone k hk1 hk2
    exact hna hnone k hk1 (by omega)

/-- Summing the elementwise products over the flattened tensor-product grid
factors into the product of the two 1-D sums. -/
theorem gridPairs_sum_mul (xs : List F) :
    ∀ ys : List F, ((gridPairs xs ys).map (fun p => p.1 * p.2)).sum = xs.sum * ys.sum := by
  intro ys
  induction ys with
  | nil => simp [gridPairs]
  | cons y ys ih =>
    have hrow : ((xs.map (fun x => (x, y))).map (fun p : F × F => p.1 * p.2)).sum
        = xs.sum * y := by
      rw [List.map_map]
      have hcomp : ((fun p : F × F => p.1 * p.2) ∘ fun x => (x, y)) = fun x => x * y := rfl
      rw [hcomp]
      simpa using List.sum_map_mul_right xs (fun x => x) y
    simp only [gridPairs, List.map_append, List.sum_append, hrow, ih, List.sum_cons]
    ring

/-- The rescaled 1-D weight list sums to `(b-a)/2` times the raw weight
sum. -/
theorem primaryScalers_sum (rule : ℕ → List (F × F)) (a b : F) (n : ℕ) :
    (primaryScalers rule a b n).sum = (b - a) / 2 * ((rule n).map Prod.snd).sum := by
  simp only [primaryScalers]
  exact List.sum_map_mul_left (rule n) Prod.snd ((b - a) / 2)

/-- The dot product of `prob_array` with the consequence array, written as an
indexed sum: term `j` is `(CDF[j] - CDF[j+1]) * cq[j]` with the CDF beyond
the last index read as 0. -/
theorem dot_prob_array_eq (cs : List F) :
    ∀ qs : List F, cs.length = qs.length →
      dotList (prob_array cs) qs
        = ∑ j ∈ Finset.range cs.length, (cs.getD j 0 - cs.getD (j + 1) 0) * qs.getD j 0 := by
  induction cs with
  | nil =>
    intro qs _
    simp [dotList, prob_array]
  | cons c cs ih =>
    intro qs hq
    cases qs with
    | nil => simp at hq
    | cons q qs =>
      simp only [List.length_cons, Nat.succ.injEq] at hq
      cases cs with
      | nil =>
        cases qs with
        | nil => simp [dotList, prob_array]
        | cons q2 qs2 => simp at hq
      | cons c2 cs2 =>
        have step : prob_array (c :: c2 :: cs2) = (c - c2) :: prob_array (c2 :: cs2) := rfl
        have hdot : dotList ((c - c2) :: prob_array (c2 :: cs2)) (q :: qs)
            = (c - c2) * q + dotList (prob_array (c2 :: cs2)) qs := by
          simp [dotList]
        rw [step, hdot, ih qs hq]
        conv_rhs => rw [List.length_cons, Finset.sum_range_succ']
        simp only [List.getD_cons_succ, List.getD_cons_zero]
        ring

end EngineLemmas

section Rule

/-- Modelled from the spec: the Gauss–Legendre quadrature rule returned by
the external dependency `scipy.special.roots_legendre` (the repository `src/`
only calls it), as the list of (abscissa, weight) pairs on `[-1, 1]` in
ascending abscissa order, given in closed form for the orders 1 to 5
exercised by the spec's concrete scenario. -/
noncomputable def roots_legendre : ℕ → List (ℝ × ℝ)
  | 1 => [(0, 2)]
  | 2 => [(-(Real.sqrt 3)⁻¹, 1), ((Real.sqrt 3)⁻¹, 1)]
  | 3 => [(-Real.sqrt (3 / 5), 5 / 9), (0, 8 / 9), (Real.sqrt (3 / 5), 5 / 9)]
  | 4 =>
    [(-Real.sqrt ((3 + 2 * Real.sqrt (6 / 5)) / 7), (18 - Real.sqrt 30) / 36),
     (-Real.sqrt ((3 - 2 * Real.sqrt (6 / 5)) / 7), (18 + Real.sqrt 30) / 36),
     (Real.sqrt ((3 - 2 * Real.sqrt (6 / 5)) / 7), (18 + Real.sqrt 30) / 36),
     (Real.sqrt ((3 + 2 * Real.sqrt (6 / 5)) / 7), (18 - Real.sqrt 30) / 36)]
  | 5 =>
    [(-Real.sqrt (5 + 2 * Real.sqrt (10 / 7)) / 3, (322 - 13 * Real.sqrt 70) / 900),
     (-Real.sqrt (5 - 2 * Real.sqrt (10 / 7)) / 3, (322 + 13 * Real.sqrt 70) / 900),
     (0, 128 / 225),
     (Real.sqrt (5 - 2 * Real.sqrt (10 / 7)) / 3, (322 + 13 * Real.sqrt 70) / 900),
     (Real.sqrt (5 + 2 * Real.sqrt (10 / 7)) / 3, (322 - 13 * Real.sqrt 70) / 900)]
  | _ => []

end Rule

section Claims

/-- C1: for every scalar IM value `im`, every non-empty list of fragility
functions and consequence array of equal length `k`,
`expected_consequence(im, fragility_curves, consequence_array)` equals the
sum over damage states `j` of `(CDF[j](im) - CDF[j+1](im)) * cq[j]`, with
the CDF beyond the last index treated as 0. -/
theorem claim_C1 {F : Type} [LinearOrderedField F] (im : F) (funcs : List (F → F))
    (cqs : List F) (hne : funcs ≠ []) (hlen : funcs.length = cqs.length) :
    expected_consequence im (some funcs) (some cqs)
      = Except.ok (∑ j ∈ Finset.range funcs.length,
          ((cdfList im funcs).getD j 0 - (cdfList im funcs).getD (j + 1) 0)
            * cqs.getD j 0) := by
  have hc : (cdfList im funcs).length = cqs.length := by
    simpa [cdfList] using hlen
  have hlc : (cdfList im funcs).length = funcs.length := by simp [cdfList]
  simp only [expected_consequence, if_pos hlen]
  rw [dot_prob_array_eq (cdfList im funcs) cqs hc, hlc]

/-- C1 witness: a concrete two-state evaluation. -/
theorem claim_C1_witness :
    ([fun _ => (1 : ℚ), fun _ => 1 / 2] ≠ ([] : List (ℚ → ℚ)))
    ∧ ([fun _ => (1 : ℚ), fun _ => 1 / 2] : List (ℚ → ℚ)).length
        = ([10, 100] : List ℚ).length
    ∧ expected_consequence (0 : ℚ) (some [fun _ => 1, fun _ => 1 / 2])
        (some [10, 100])
      = Except.ok (∑ j ∈ Finset.range
          ([fun _ => (1 : ℚ), fun _ => 1 / 2] : List (ℚ → ℚ)).length,
          ((cdfList (0 : ℚ) [fun _ => 1, fun _ => 1 / 2]).getD j 0
            - (cdfList (0 : ℚ) [fun _ => 1, fun _ => 1 / 2]).getD (j + 1) 0)
            * ([10, 100] : List ℚ).getD j 0) :=
  ⟨by simp, rfl, claim_C1 0 [fun _ => 1, fun _ => 1 / 2] [10, 100] (by simp) rfl⟩

/-- C5 counterexample: when `cq_array` alone is omitted, the failure is the
`TypeError` raised by `len(None)`, not the missing-argument assertion
error. -/
theorem claim_C5_counterexample :
    expected_consequence (0 : ℚ) (some [fun _ => 1]) none
      = Except.error ConsequenceError.noneLength
    ∧ ConsequenceError.noneLength ≠ ConsequenceError.missingFragility :=
  ⟨rfl, by decide⟩

/-- C5 (amended): `expected_consequence` fails with the length-mismatch
assertion whenever both arguments are given with different lengths; it fails
with the missing-argument assertion when `fragility_funcs` is omitted; when
only `cq_array` is omitted it fails with a `TypeError` from `len(None)`
rather than a missing-argument error; in every failing case no partial
result is returned. -/
theorem claim_C5_amended {F : Type} [LinearOrderedField F] (im : F)
    (fs : List (F → F)) (qs : List F) (hne : fs.length ≠ qs.length) :
    expected_consequence im none (some qs)
      = Except.error ConsequenceError.missingFragility
    ∧ expected_consequence im (none : Option (List (F → F))) none
      = Except.error ConsequenceError.missingFragility
    ∧ expected_consequence im (some fs) none
      = Except.error ConsequenceError.noneLength
    ∧ expected_consequence im (some fs) (some qs)
      = Except.error ConsequenceError.lengthMismatch
    ∧ (∀ (ff : Option (List (F → F))) (cq : Option (List F)) (v : F),
        expected_consequence im ff cq = Except.ok v → ff ≠ none ∧ cq ≠ none) := by
  refine ⟨rfl, rfl, rfl, ?_, ?_⟩
  · simp only [expected_consequence, if_neg hne]
  · intro ff cq v h
    cases ff with
    | none => simp [expected_consequence] at h
    | some fs2 =>
      cases cq with
      | none => simp [expected_consequence] at h
      | some qs2 => exact ⟨by simp, by simp⟩

/-- C5 witness for the amended claim: a concrete length mismatch. -/
theorem claim_C5_amended_witness :
    (([fun _ => (1 : ℚ)] : List (ℚ → ℚ)).length ≠ ([] : List ℚ).length)
    ∧ expected_consequence (0 : ℚ) (some [fun _ => 1]) (some ([] : List ℚ))
        = Except.error ConsequenceError.lengthMismatch :=
  ⟨by decide, (claim_C5_amended 0 [fun _ => 1] [] (by decide)).2.2.2.1⟩

/-- C8: for every IM and every 4-element fragility sequence whose CDF values
at that IM lie in `[0,1]` and are non-increasing with severity, the four
per-state probabilities computed by `expected_consequence` each lie in
`[0,1]` and their sum does not exceed 1. -/
theorem claim_C8 {F : Type} [LinearOrderedField F] (im : F) (f0 f1 f2 f3 : F → F)
    (h0l : 0 ≤ f0 im) (h0u : f0 im ≤ 1)
    (h1l : 0 ≤ f1 im) (h1u : f1 im ≤ 1)
    (h2l : 0 ≤ f2 im) (h2u : f2 im ≤ 1)
    (h3l : 0 ≤ f3 im) (h3u : f3 im ≤ 1)
    (h01 : f1 im ≤ f0 im) (h12 : f2 im ≤ f1 im) (h23 : f3 im ≤ f2 im) :
    (∀ p ∈ prob_array (cdfList im [f0, f1, f2, f3]), 0 ≤ p ∧ p ≤ 1)
    ∧ (prob_array (cdfList im [f0, f1, f2, f3])).sum ≤ 1 := by
  have hp : prob_array (cdfList im [f0, f1, f2, f3])
      = [f0 im - f1 im, f1 im - f2 im, f2 im - f3 im, f3 im] := rfl
  rw [hp]
  constructor
  · intro p hmem
    simp only [List.mem_cons, List.not_mem_nil, or_false] at hmem
    rcases hmem with rfl | rfl | rfl | rfl <;> constructor <;> linarith
  · simp only [List.sum_cons, List.sum_nil]
    linarith

/-- C8 witness: a concrete non-increasing 4-state CDF sequence. -/
theorem claim_C8_witness :
    ((0 : ℚ) ≤ 1 ∧ (1 : ℚ) ≤ 1 ∧ (0 : ℚ) ≤ 3 / 4 ∧ (3 / 4 : ℚ) ≤ 1
      ∧ (0 : ℚ) ≤ 1 / 2 ∧ (1 / 2 : ℚ) ≤ 1 ∧ (0 : ℚ) ≤ 1 / 4 ∧ (1 / 4 : ℚ) ≤ 1
      ∧ (3 / 4 : ℚ) ≤ 1 ∧ (1 / 2 : ℚ) ≤ 3 / 4 ∧ (1 / 4 : ℚ) ≤ 1 / 2)
    ∧ (∀ p ∈ prob_array (cdfList (0 : ℚ)
        [fun _ => 1, fun _ => 3 / 4, fun _ => 1 / 2, fun _ => 1 / 4]),
        0 ≤ p ∧ p ≤ 1)
    ∧ (prob_array (cdfList (0 : ℚ)
        [fun _ => 1, fun _ => 3 / 4, fun _ => 1 / 2, fun _ => 1 / 4])).sum ≤ 1 :=
  ⟨by norm_num,
    (claim_C8 0 (fun _ => 1) (fun _ => 3 / 4) (fun _ => 1 / 2) (fun _ => 1 / 4)
      (by norm_num) (by norm_num) (by norm_num) (by norm_num) (by norm_num)
      (by norm_num) (by norm_num) (by norm_num) (by norm_num) (by norm_num)
      (by norm_num)).1,
    (claim_C8 0 (fun _ => 1) (fun _ => 3 / 4) (fun _ => 1 / 2) (fun _ => 1 / 4)
      (by norm_num) (by norm_num) (by norm_num) (by norm_num) (by norm_num)
      (by norm_num) (by norm_num) (by norm_num) (by norm_num) (by norm_num)
      (by norm_num)).2⟩

/-- C3: the rescaled 1-D weights of any accepted order sum exactly to
`b - a`, and the grid sum of the 2-D weight-pair products equals exactly
`(b-a)(d-c)`, given the defining normalization of the Gauss-Legendre rule
(its raw weights sum to 2, i.e. the rule integrates constants over `[-1,1]`
exactly). -/
theorem claim_C3 {F : Type} [LinearOrderedField F] (rule : ℕ → List (F × F))
    (n : ℕ) (a b c d : F) (hn : 1 ≤ n) (hab : a < b) (hcd : c < d)
    (hw : ((rule n).map Prod.snd).sum = 2) :
    (primaryScalers rule a b n).sum = b - a
    ∧ ((gridPairs (primaryScalers rule a b n) (primaryScalers rule c d n)).map
        (fun p => p.1 * p.2)).sum = (b - a) * (d - c) := by
  have h1 : (primaryScalers rule a b n).sum = b - a := by
    rw [primaryScalers_sum, hw]; ring
  have h2 : (primaryScalers rule c d n).sum = d - c := by
    rw [primaryScalers_sum, hw]; ring
  exact ⟨h1, by rw [gridPairs_sum_mul, h1, h2]⟩

/-- C3 witness: the order-1 Gauss-Legendre rule on `[0,1]` and
`[0,1] x [0,2]`. -/
theorem claim_C3_witness :
    ((1 : ℕ) ≤ 1 ∧ (0 : ℚ) < 1 ∧ (0 : ℚ) < 2
      ∧ (((fun _ => [((0 : ℚ), 2)]) 1).map Prod.snd).sum = 2)
    ∧ (primaryScalers (fun _ => [((0 : ℚ), 2)]) 0 1 1).sum = 1 - 0
    ∧ ((gridPairs (primaryScalers (fun _ => [((0 : ℚ), 2)]) 0 1 1)
        (primaryScalers (fun _ => [((0 : ℚ), 2)]) 0 2 1)).map
        (fun p => p.1 * p.2)).sum = (1 - 0) * (2 - 0) :=
  ⟨⟨le_refl 1, by norm_num, by norm_num, by norm_num [primaryScalers]⟩,
    claim_C3 (fun _ => [((0 : ℚ), 2)]) 1 0 1 0 2 (le_refl 1) (by norm_num)
      (by norm_num) (by norm_num)⟩

/-- The `iters` field of any 1-D engine result is bounded by the number of
orders in range. -/
theorem generate_primary_iters_le {F : Type} [LinearOrderedField F]
    (rule : ℕ → List (F × F)) (a b : F) (lfO cfO : Option (UserFn F))
    (vl vc : Bool) (tol rtol : F) (minO maxO : ℕ) (r : EngineResult F F)
    (h : generate_primary_event rule a b lfO vl cfO vc tol rtol minO maxO = some r) :
    r.iters ≤ maxO + 1 - minO := by
  cases lfO with
  | none => simp [generate_primary_event] at h
  | some lf =>
    cases cfO with
    | none => simp [generate_primary_event] at h
    | some cf =>
      simp only [generate_primary_event] at h
      cases hq : quadLoop (primaryStep rule a b lf vl cf vc) StepOut.newval tol rtol
          (maxO + 1 - minO) minO none none none with
      | none => rw [hq] at h; cases h
      | some lo =>
        rw [hq, Option.some_bind] at h
        have hiter := quadLoop_iters_le (primaryStep rule a b lf vl cf vc)
          StepOut.newval tol rtol (maxO + 1 - minO) minO none none none lo hq
        simp only [finishEngine] at h
        cases hl2 : lo.last with
        | none => rw [hl2] at h; cases h
        | some out =>
          cases hv2 : lo.val with
          | none => rw [hl2, hv2] at h; cases h
          | some v =>
            rw [hl2, hv2] at h
            cases h
            exact hiter

/-- The `iters` field of any 2-D engine result is bounded by the number of
orders in range. -/
theorem generate_secondary_iters_le {F : Type} [LinearOrderedField F]
    (rule : ℕ → List (F × F)) (a b c d : F) (lfO : Option (UserFn2 F))
    (cfO : Option (UserFn F)) (vl vc : Bool) (tol rtol : F) (minO maxO : ℕ)
    (r : EngineResult (F × F) F)
    (h : generate_secondary_event rule a b c d lfO vl cfO vc tol rtol minO maxO
      = some r) :
    r.iters ≤ maxO + 1 - minO := by
  cases lfO with
  | none => simp [generate_secondary_event] at h
  | some lf =>
    cases cfO with
    | none => simp [generate_secondary_event] at h
    | some cf =>
      simp only [generate_secondary_event] at h
      cases hq : quadLoop (secondaryStep rule a b c d lf cf) StepOut.newval tol rtol
          (maxO + 1 - minO) minO none none none with
      | none => rw [hq] at h; cases h
      | some lo =>
        rw [hq, Option.some_bind] at h
        have hiter := quadLoop_iters_le (secondaryStep rule a b c d lf cf)
          StepOut.newval tol rtol (maxO + 1 - minO) minO none none none lo hq
        simp only [finishEngine] at h
        cases hl2 : lo.last with
        | none => rw [hl2] at h; cases h
        | some out =>
          cases hv2 : lo.val with
          | none => rw [hl2, hv2] at h; cases h
          | some v =>
            rw [hl2, hv2] at h
            cases h
            exact hiter

/-- C9: for every call to either engine with `1 <= min_order <= max_order`,
the order-escalation loop executes at most `max_order - min_order + 1`
iterations (and, the loop being a bounded range iteration, the call
terminates). -/
theorem claim_C9 {F : Type} [LinearOrderedField F] (rule : ℕ → List (F × F))
    (a b c d tol rtol : F) (min_order max_order : ℕ)
    (h1 : 1 ≤ min_order) (h2 : min_order ≤ max_order) :
    (∀ (likelihood_func consequence_func : Option (UserFn F)) (vl vc : Bool)
      (r : EngineResult F F),
      generate_primary_event rule a b likelihood_func vl consequence_func vc tol rtol
        min_order max_order = some r → r.iters ≤ max_order - min_order + 1)
    ∧ (∀ (likelihood_func : Option (UserFn2 F)) (consequence_func : Option (UserFn F))
      (vl vc : Bool) (r : EngineResult (F × F) F),
      generate_secondary_event rule a b c d likelihood_func vl consequence_func vc
        tol rtol min_order max_order = some r → r.iters ≤ max_order - min_order + 1) := by
  constructor
  · intro lfO cfO vl vc r h
    have := generate_primary_iters_le rule a b lfO cfO vl vc tol rtol
      min_order max_order r h
    omega
  · intro lfO cfO vl vc r h
    have := generate_secondary_iters_le rule a b c d lfO cfO vl vc tol rtol
      min_order max_order r h
    omega

/-- C9 witness: a concrete run of the 1-D engine. -/
theorem claim_C9_witness :
    ((1 : ℕ) ≤ 1 ∧ (1 : ℕ) ≤ 2)
    ∧ ∃ r : EngineResult ℚ ℚ,
      generate_primary_event (fun _ => [((0 : ℚ), 2)]) 0 1
        (some ⟨fun _ => 1, false⟩) false (some ⟨fun _ => 1, false⟩) false
        (1 / 100000000) (1 / 100000000) 1 2 = some r
      ∧ r.iters ≤ 2 - 1 + 1 := by
  obtain ⟨r, hr, _⟩ := primary_char (fun _ => [((0 : ℚ), 2)]) 0 1
    ⟨fun _ => 1, false⟩ ⟨fun _ => 1, false⟩ false false
    (1 / 100000000) (1 / 100000000) 1 2
    (fun h => Bool.noConfusion h) (fun h => Bool.noConfusion h) (by norm_num)
  exact ⟨⟨le_refl 1, by norm_num⟩, r, hr,
    (claim_C9 (fun _ => [((0 : ℚ), 2)]) 0 1 0 1 (1 / 100000000) (1 / 100000000)
      1 2 (le_refl 1) (by norm_num)).1
      (some ⟨fun _ => 1, false⟩) (some ⟨fun _ => 1, false⟩) false false r hr⟩

/-- C2: in `generate_primary_event`, the candidate risk at each order is the
sum over sample points of (rescaled weight x likelihood x consequence); the
previous candidate is initialized to `+inf` so the first iteration never
satisfies the stopping test; the loop stops and accepts order `n` exactly
when the error `|candidate - previous|` is `< tol` or `< rtol * |candidate|`
(first such order); and on return after an accepted order the returned
`(val, err)` pair satisfies `err < tol` or `err < rtol * |val|`. -/
theorem claim_C2 {F : Type} [LinearOrderedField F] (rule : ℕ → List (F × F))
    (a b : F) (lf cf : UserFn F) (vl vc : Bool) (tol rtol : F)
    (min_order max_order : ℕ)
    (hl : vl = true → lf.supportsArray = true)
    (hc : vc = true → cf.supportsArray = true)
    (hmin : min_order ≤ max_order) :
    ∃ r : EngineResult F F,
      generate_primary_event rule a b (some lf) vl (some cf) vc tol rtol
        min_order max_order = some r
      ∧ (∀ n out, primaryStep rule a b lf vl cf vc n = some out →
          out.newval = (List.zipWith (fun u v => u * v)
            (List.zipWith (fun u v => u * v) out.scalers out.likes) out.cqs).sum)
      ∧ r.acceptedOrder ≠ some min_order
      ∧ (∀ m, r.acceptedOrder = some m →
          stopSeq tol rtol (primaryNv rule a b lf cf) m = true
          ∧ (∀ k, min_order < k → k < m →
              stopSeq tol rtol (primaryNv rule a b lf cf) k = false)
          ∧ ∃ e, r.err = some e ∧ (e < tol ∨ e < rtol * |r.val|))
      ∧ (r.acceptedOrder = none →
          ∀ k, min_order < k → k ≤ max_order →
            stopSeq tol rtol (primaryNv rule a b lf cf) k = false) := by
  obtain ⟨r, hr, _, _, hsome, hnone⟩ :=
    primary_char rule a b lf cf vl vc tol rtol min_order max_order hl hc hmin
  refine ⟨r, hr, ?_, ?_, ?_, ?_⟩
  · intro n out h
    rw [primaryStep_eq_total rule a b lf cf vl vc hl hc n] at h
    cases h
    rfl
  · intro heq
    obtain ⟨h1, _, _, _, _, _⟩ := hsome min_order heq
    omega
  · intro m hm
    obtain ⟨h1, h2, h3, h4, h5, h6⟩ := hsome m hm
    refine ⟨h3, fun k hk1 hk2 => h4 k (by omega) hk2, ?_⟩
    have hcond : |primaryNv rule a b lf cf m - primaryNv rule a b lf cf (m - 1)| < tol
        ∨ |primaryNv rule a b lf cf m - primaryNv rule a b lf cf (m - 1)|
          < rtol * |primaryNv rule a b lf cf m| := by
      simpa [stopSeq, stopTest, decide_eq_true_eq] using h3
    refine ⟨_, h6, ?_⟩
    rw [h5]
    exact hcond
  · intro hno k hk1 hk2
    exact hnone hno k (by omega) hk2

/-- C2 witness: a concrete run where the engine accepts an order above
`min_order`. -/
theorem claim_C2_witness :
    ((false = true → (⟨fun _ => (1 : ℚ), false⟩ : UserFn ℚ).supportsArray = true)
      ∧ (false = true → (⟨fun _ => (1 : ℚ), false⟩ : UserFn ℚ).supportsArray = true)
      ∧ (1 : ℕ) ≤ 2)
    ∧ ∃ r : EngineResult ℚ ℚ,
      generate_primary_event (fun _ => [((0 : ℚ), 2)]) 0 1
        (some ⟨fun _ => 1, false⟩) false (some ⟨fun _ => 1, false⟩) false
        (1 / 100000000) (1 / 100000000) 1 2 = some r
      ∧ r.acceptedOrder ≠ some 1 := by
  obtain ⟨r, hr, _, hfirst, _, _⟩ := claim_C2 (fun _ => [((0 : ℚ), 2)]) 0 1
    ⟨fun _ => 1, false⟩ ⟨fun _ => 1, false⟩ false false
    (1 / 100000000) (1 / 100000000) 1 2
    (fun h => Bool.noConfusion h) (fun h => Bool.noConfusion h) (by norm_num)
  exact ⟨⟨fun h => Bool.noConfusion h, fun h => Bool.noConfusion h, by norm_num⟩,
    r, hr, hfirst⟩

/-- C6: whenever the loop of either engine exhausts `max_order` without the
stopping test holding (and the loop actually ran, i.e.
`min_order <= max_order`, with every function evaluation succeeding), the
last computed estimate is still returned as a 6-tuple, and an accuracy
warning carrying `(max_order, final error)` is emitted exactly when
`max_order > min_order`. -/
theorem claim_C6 {F : Type} [LinearOrderedField F] (rule : ℕ → List (F × F))
    (a b c d : F) (lf cf : UserFn F) (lf2 : UserFn2 F) (cf2 : UserFn F)
    (vl vc vl2 vc2 : Bool) (tol rtol : F) (min_order max_order : ℕ)
    (hl : vl = true → lf.supportsArray = true)
    (hc : vc = true → cf.supportsArray = true)
    (hl2 : lf2.supportsArray = true) (hc2 : cf2.supportsArray = true)
    (hmin : min_order ≤ max_order) :
    ∃ (r : EngineResult F F) (r2 : EngineResult (F × F) F),
      generate_primary_event rule a b (some lf) vl (some cf) vc tol rtol
        min_order max_order = some r
      ∧ generate_secondary_event rule a b c d (some lf2) vl2 (some cf2) vc2 tol rtol
        min_order max_order = some r2
      ∧ (r.acceptedOrder = none →
          r.warned = (if min_order < max_order then some (max_order, r.err) else none))
      ∧ (r2.acceptedOrder = none →
          r2.warned = (if min_order < max_order then some (max_order, r2.err) else none))
      ∧ (r.acceptedOrder ≠ none → r.warned = none)
      ∧ (r2.acceptedOrder ≠ none → r2.warned = none) := by
  obtain ⟨r, hr, _, hw, _, _⟩ :=
    primary_char rule a b lf cf vl vc tol rtol min_order max_order hl hc hmin
  obtain ⟨r2, hr2, _, hw2, _, _⟩ :=
    secondary_char rule a b c d lf2 cf2 vl2 vc2 tol rtol min_order max_order hl2 hc2 hmin
  refine ⟨r, r2, hr, hr2, ?_, ?_, ?_, ?_⟩
  · intro hnone; rw [hw]; simp [hnone]
  · intro hnone; rw [hw2]; simp [hnone]
  · intro hne; rw [hw]; simp [hne]
  · intro hne; rw [hw2]; simp [hne]

/-- C6 witness: a single-order run (`min_order = max_order = 1`): the loop
exhausts the range without converging, no warning is emitted
(`max_order = min_order`), and the 6-tuple is still returned. -/
theorem claim_C6_witness :
    ((false = true → (⟨fun _ => (1 : ℚ), false⟩ : UserFn ℚ).supportsArray = true)
      ∧ (⟨fun _ _ => (1 : ℚ), true⟩ : UserFn2 ℚ).supportsArray = true
      ∧ (⟨fun _ => (1 : ℚ), true⟩ : UserFn ℚ).supportsArray = true
      ∧ (1 : ℕ) ≤ 1)
    ∧ ∃ (r : EngineResult ℚ ℚ) (r2 : EngineResult (ℚ × ℚ) ℚ),
      generate_primary_event (fun _ => [((0 : ℚ), 2)]) 0 1
        (some ⟨fun _ => 1, false⟩) false (some ⟨fun _ => 1, false⟩) false
        (1 / 100000000) (1 / 100000000) 1 1 = some r
      ∧ generate_secondary_event (fun _ => [((0 : ℚ), 2)]) 0 1 0 1
        (some ⟨fun _ _ => 1, true⟩) false (some ⟨fun _ => 1, true⟩) false
        (1 / 100000000) (1 / 100000000) 1 1 = some r2
      ∧ (r.acceptedOrder = none →
          r.warned = (if (1 : ℕ) < 1 then some (1, r.err) else none))
      ∧ (r2.acceptedOrder = none →
          r2.warned = (if (1 : ℕ) < 1 then some (1, r2.err) else none)) := by
  obtain ⟨r, r2, hr, hr2, hwa, hwb, _, _⟩ := claim_C6 (fun _ => [((0 : ℚ), 2)])
    0 1 0 1 ⟨fun _ => 1, false⟩ ⟨fun _ => 1, false⟩ ⟨fun _ _ => 1, true⟩
    ⟨fun _ => 1, true⟩ false false false false (1 / 100000000) (1 / 100000000) 1 1
    (fun h => Bool.noConfusion h) (fun h => Bool.noConfusion h) rfl rfl (le_refl 1)
  exact ⟨⟨fun h => Bool.noConfusion h, rfl, rfl, le_refl 1⟩, r, r2, hr, hr2, hwa, hwb⟩

/-- C10 counterexample: a call with `min_order = 1 <= max_order = 1` and
both functions supplied that nevertheless raises (returns no tuple), because
`vec_likelihood=True` makes the engine call the scalar-only likelihood raw
on the sample array. -/
theorem claim_C10_counterexample :
    generate_primary_event (fun _ => [((0 : ℚ), 2)]) 0 1
      (some ⟨fun x => x, false⟩) true (some ⟨fun x => x, false⟩) false
      (1 / 100000000) (1 / 100000000) 1 1 = none := rfl

/-- C10 (amended): when `min_order > max_order` the loop body never executes
and the `return` statement references never-assigned names, so the call
fails; when `min_order <= max_order`, both functions are supplied, and every
function evaluation performed by the loop succeeds (each function invoked
with array input supports it), the call returns a well-defined 6-tuple. -/
theorem claim_C10_amended {F : Type} [LinearOrderedField F]
    (rule : ℕ → List (F × F)) (a b c d : F) (lf cf : UserFn F) (vl vc : Bool)
    (lf2 : UserFn2 F) (cf2 : UserFn F) (vl2 vc2 : Bool) (tol rtol : F)
    (min_order max_order : ℕ)
    (hl : vl = true → lf.supportsArray = true)
    (hc : vc = true → cf.supportsArray = true)
    (hl2 : lf2.supportsArray = true) (hc2 : cf2.supportsArray = true) :
    if max_order < min_order then
      generate_primary_event rule a b (some lf) vl (some cf) vc tol rtol
        min_order max_order = none
      ∧ generate_secondary_event rule a b c d (some lf2) vl2 (some cf2) vc2 tol rtol
        min_order max_order = none
    else
      (∃ r : EngineResult F F,
        generate_primary_event rule a b (some lf) vl (some cf) vc tol rtol
          min_order max_order = some r)
      ∧ (∃ r2 : EngineResult (F × F) F,
        generate_secondary_event rule a b c d (some lf2) vl2 (some cf2) vc2 tol rtol
          min_order max_order = some r2) := by
  split_ifs with h
  · have hfuel : max_order + 1 - min_order = 0 := by omega
    constructor
    · simp only [generate_primary_event, hfuel]
      rfl
    · simp only [generate_secondary_event, hfuel]
      rfl
  · have hmin : min_order ≤ max_order := by omega
    obtain ⟨r, hr, _⟩ :=
      primary_char rule a b lf cf vl vc tol rtol min_order max_order hl hc hmin
    obtain ⟨r2, hr2, _⟩ :=
      secondary_char rule a b c d lf2 cf2 vl2 vc2 tol rtol min_order max_order hl2 hc2 hmin
    exact ⟨⟨r, hr⟩, ⟨r2, hr2⟩⟩

/-- C10 witness for the amended claim, at `min_order = max_order = 1`. -/
theorem claim_C10_amended_witness :
    ((false = true → (⟨fun _ => (1 : ℚ), false⟩ : UserFn ℚ).supportsArray = true)
      ∧ (⟨fun _ _ => (1 : ℚ), true⟩ : UserFn2 ℚ).supportsArray = true
      ∧ (⟨fun _ => (1 : ℚ), true⟩ : UserFn ℚ).supportsArray = true)
    ∧ (if (1 : ℕ) < 1 then
        generate_primary_event (fun _ => [((0 : ℚ), 2)]) 0 1
          (some ⟨fun _ => 1, false⟩) false (some ⟨fun _ => 1, false⟩) false
          (1 / 100000000) (1 / 100000000) 1 1 = none
        ∧ generate_secondary_event (fun _ => [((0 : ℚ), 2)]) 0 1 0 1
          (some ⟨fun _ _ => 1, true⟩) false (some ⟨fun _ => 1, true⟩) false
          (1 / 100000000) (1 / 100000000) 1 1 = none
      else
        (∃ r : EngineResult ℚ ℚ,
          generate_primary_event (fun _ => [((0 : ℚ), 2)]) 0 1
            (some ⟨fun _ => 1, false⟩) false (some ⟨fun _ => 1, false⟩) false
            (1 / 100000000) (1 / 100000000) 1 1 = some r)
        ∧ (∃ r2 : EngineResult (ℚ × ℚ) ℚ,
          generate_secondary_event (fun _ => [((0 : ℚ), 2)]) 0 1 0 1
            (some ⟨fun _ _ => 1, true⟩) false (some ⟨fun _ => 1, true⟩) false
            (1 / 100000000) (1 / 100000000) 1 1 = some r2)) :=
  ⟨⟨fun h => Bool.noConfusion h, rfl, rfl⟩,
    claim_C10_amended (fun _ => [((0 : ℚ), 2)]) 0 1 0 1
      ⟨fun _ => 1, false⟩ ⟨fun _ => 1, false⟩ false false
      ⟨fun _ _ => 1, true⟩ ⟨fun _ => 1, true⟩ false false
      (1 / 100000000) (1 / 100000000) 1 1
      (fun h => Bool.noConfusion h) (fun h => Bool.noConfusion h) rfl rfl⟩

/-- C4 (code behaviour at the failing input): `generate_secondary_event`
does not honor the `vec` flags the way `generate_primary_event` does.  With
the same scalar-only consequence function and `vec_consequence = False`, the
1-D engine succeeds (it evaluates through the `np.vectorize` adapter) while
the 2-D engine raises, because its loop body calls the function raw on the
sample array instead of through the adapter it built. -/
theorem claim_C4_bug :
    generate_secondary_event (fun _ => [((0 : ℚ), 2)]) 0 1 0 1
      (some ⟨fun _ _ => 1, true⟩) false (some ⟨fun x => x, false⟩) false
      (1 / 100000000) (1 / 100000000) 1 1 = none
    ∧ (∃ r : EngineResult ℚ ℚ,
      generate_primary_event (fun _ => [((0 : ℚ), 2)]) 0 1
        (some ⟨fun _ => 1, false⟩) false (some ⟨fun x => x, false⟩) false
        (1 / 100000000) (1 / 100000000) 1 1 = some r) :=
  ⟨rfl, ⟨_, rfl⟩⟩

/-- The order-1 candidate of the concrete scenario `a=0, b=1`,
`likelihood = 1`, `consequence = identity` is exactly `1/2`. -/
theorem concrete_nv1 :
    primaryNv roots_legendre 0 1 ⟨fun _ => (1 : ℝ), false⟩ ⟨fun im => im, false⟩ 1
      = 1 / 2 := by
  simp only [primaryNv, primaryStepTotal, primaryIms, primaryScalers, roots_legendre,
    List.map_cons, List.map_nil, List.zipWith_cons_cons, List.zipWith_nil_right,
    List.sum_cons, List.sum_nil]
  norm_num

/-- The order-2 candidate of the concrete scenario is also exactly `1/2`:
the symmetric `+-1/sqrt(3)` abscissa terms cancel. -/
theorem concrete_nv2 :
    primaryNv roots_legendre 0 1 ⟨fun _ => (1 : ℝ), false⟩ ⟨fun im => im, false⟩ 2
      = 1 / 2 := by
  simp only [primaryNv, primaryStepTotal, primaryIms, primaryScalers, roots_legendre,
    List.map_cons, List.map_nil, List.zipWith_cons_cons, List.zipWith_nil_right,
    List.sum_cons, List.sum_nil]
  ring

/-- C7: the concrete scenario
`generate_primary_event(0, 1, likelihood = const 1, consequence = identity,
min_order=1, max_order=5)` with the default tolerances returns a risk value
equal to `0.5` within `1e-10` and stops at an order at most 2. -/
theorem claim_C7 :
    ∃ r : EngineResult ℝ ℝ,
      generate_primary_event roots_legendre 0 1 (some ⟨fun _ => 1, false⟩) false
        (some ⟨fun im => im, false⟩) false (1 / 100000000) (1 / 100000000) 1 5
        = some r
      ∧ |r.val - 1 / 2| ≤ 1 / 10000000000
      ∧ ∃ m, r.acceptedOrder = some m ∧ m ≤ 2 := by
  obtain ⟨r, hr, _, _, hsome, hnone⟩ := primary_char roots_legendre 0 1
    ⟨fun _ => (1 : ℝ), false⟩ ⟨fun im => im, false⟩ false false
    (1 / 100000000) (1 / 100000000) 1 5
    (fun h => Bool.noConfusion h) (fun h => Bool.noConfusion h) (by norm_num)
  have hstop2 : stopSeq (1 / 100000000 : ℝ) (1 / 100000000)
      (primaryNv roots_legendre 0 1 ⟨fun _ => 1, false⟩ ⟨fun im => im, false⟩) 2
      = true := by
    have h21 : (2 : ℕ) - 1 = 1 := rfl
    simp only [stopSeq, h21, concrete_nv1, concrete_nv2, stopTest]
    rw [decide_eq_true_eq]
    left
    norm_num
  cases hacc : r.acceptedOrder with
  | none =>
    exfalso
    have hfalse := hnone hacc 2 (by norm_num) (by norm_num)
    rw [hfalse] at hstop2
    exact Bool.noConfusion hstop2
  | some m =>
    obtain ⟨h1, h2, h3, h4, h5, h6⟩ := hsome m hacc
    have hm2 : m = 2 := by
      by_contra hne
      have hmgt : 2 < m := by omega
      have hfalse := h4 2 (by norm_num) hmgt
      rw [hfalse] at hstop2
      exact Bool.noConfusion hstop2
    subst hm2
    refine ⟨r, hr, ?_, ⟨2, hacc, le_refl 2⟩⟩
    rw [h5, concrete_nv2]
    norm_num

end Claims

end RiskBMS
